import Mathlib

/-!
Verification of the penny-basing alert and flip-only trading pipeline
(`grok.py` and `live_trader.py`).  Prices and timestamps are modelled as
rationals, quantities as integers or naturals, and the stateful Python
objects as explicit state records threaded through step functions.
-/

set_option maxRecDepth 4000

/-- Order sides accepted by the Schwab executor wrappers. -/
inductive Side where
  | BUY
  | SELL
  | SHORT
  | COVER
deriving DecidableEq, Repr

/-- Imbalance directions used by the detector and trader. -/
inductive Direction where
  | askHeavy
  | bidHeavy
deriving DecidableEq, Repr

/-- Mirrors the membership test `side in {"BUY", "COVER"}` used throughout
`live_trader.py`. -/
def Side.isBuySide : Side → Bool
  | .BUY => true
  | .COVER => true
  | .SELL => false
  | .SHORT => false

/-- Signed position delta of a fill: `BUY`/`COVER` add `qty`, `SELL`/`SHORT`
subtract it (`LiveTrader._record_fill`, line 420). -/
def sideDelta (side : Side) (qty : ℤ) : ℤ :=
  if side.isBuySide then qty else -qty

/-- Embedding of `LiveTrader._apply_filled_delta` (live_trader.py lines
427-453).  Returns the new `filled_qty_seen` together with the quantity
passed to `_record_fill` (0 when no fill is recorded). -/
def applyFilledDelta (qty filledQty filledQtySeen : ℤ) : ℤ × ℤ :=
  if filledQty < filledQtySeen then
    (filledQtySeen, 0)
  else
    let capped := if qty < filledQty then qty else filledQty
    let delta := capped - filledQtySeen
    if 0 < delta then (capped, delta) else (capped, 0)

/-- Round-half-even on rationals, the tie-breaking used by Python's
built-in `round`. -/
def roundHalfEven (x : ℚ) : ℤ :=
  if x - ⌊x⌋ < 1/2 then ⌊x⌋
  else if 1/2 < x - ⌊x⌋ then ⌊x⌋ + 1
  else if Even ⌊x⌋ then ⌊x⌋ else ⌊x⌋ + 1

/-- Python's `round(x, 4)` on rationals. -/
def roundTo4 (x : ℚ) : ℚ :=
  (roundHalfEven (x * 10000) : ℚ) / 10000

/-- Embedding of `LiveTrader._aggressive_limit_price` (live_trader.py lines
502-523): pad the reference price by `limit_slippage_bps`, round to four
decimals and clamp the result to at least `0.01`. -/
def aggressiveLimitPrice (slippageBps : ℚ) (side : Side) (referencePrice : ℚ) : ℚ :=
  if referencePrice ≤ 0 then referencePrice
  else
    let slipFraction := max slippageBps 0 / 10000
    let adjusted :=
      if side.isBuySide then referencePrice * (1 + slipFraction)
      else referencePrice * (1 - slipFraction)
    max (roundTo4 adjusted) (1/100)

/-- Risk-relevant state of `LiveTrader`: the signed position for the traded
symbol, the rolling list of trade timestamps, and whether emergency shutdown
was engaged (in the source, `_engage_emergency_shutdown` raises
`SystemExit`; here it sets a flag). -/
structure TraderRisk where
  position : ℤ
  tradeTimes : List ℚ
  shutdown : Bool
deriving DecidableEq, Repr

/-- Embedding of `LiveTrader._enforce_trade_rate_limit` (live_trader.py lines
597-605): keep timestamps within the last 3600 seconds and engage shutdown
when their count exceeds `max_trades_per_hour`. -/
def enforceTradeRateLimit (maxTradesPerHour : ℕ) (now : ℚ) (st : TraderRisk) : TraderRisk :=
  let kept := st.tradeTimes.filter (fun ts => decide (now - 3600 ≤ ts))
  { st with
      tradeTimes := kept
      shutdown := st.shutdown || decide (maxTradesPerHour < kept.length) }

/-- Embedding of `LiveTrader._record_fill` (live_trader.py lines 419-425):
apply the signed position delta, append the wall-clock time to
`trade_timestamps` and run the rate limiter.  The fill price is not an
argument because the source function does not receive one. -/
def recordFill (maxTradesPerHour : ℕ) (side : Side) (qty : ℕ) (now : ℚ)
    (st : TraderRisk) : TraderRisk :=
  let st₁ := { st with position := st.position + sideDelta side qty }
  enforceTradeRateLimit maxTradesPerHour now { st₁ with tradeTimes := st₁.tradeTimes ++ [now] }

/-- A confirmed market fill at price `fillPrice` as processed by
`LiveTrader._submit_order`'s market path: it calls `_record_fill` and never
inspects the fill price. -/
def confirmMarketFill (maxTradesPerHour : ℕ) (side : Side) (qty : ℕ)
    (fillPrice : ℚ) (now : ℚ) (st : TraderRisk) : TraderRisk :=
  recordFill maxTradesPerHour side qty now st

/-- Fractional part of a price, the `P mod 1` of the specification. -/
def priceFraction (p : ℚ) : ℚ := p - ⌊p⌋

/-- Modelled from the spec: the bad-fill guard condition of §4.7 ("if
`P mod 1 ∈ [0.985, 0.995]` and side ∈ {BUY, COVER}, OR `P mod 1 ∈
[0.005, 0.015]` and side ∈ {SELL, SHORT}").  No such guard exists in
`live_trader.py`; this definition states the claimed trigger condition. -/
def specBadFillGuardTriggers (side : Side) (p : ℚ) : Bool :=
  (side.isBuySide && decide (985/1000 ≤ priceFraction p ∧ priceFraction p ≤ 995/1000)) ||
  (!side.isBuySide && decide (5/1000 ≤ priceFraction p ∧ priceFraction p ≤ 15/1000))

/-!  Book normalizer (`grok.py _flatten_l2`, lines 129-230). -/

/-- The closed exchange-code map of `grok.py` (`EXCHANGE_MAP`, lines 50-67),
as an association list from feed codes to readable venue names. -/
def exchangeMap : List (String × String) :=
  [("NYSE", "NYSE"), ("MEMX", "MEMX"), ("IEXG", "IEX"), ("NSDQ", "NASDAQ"),
   ("NASDAQ", "NASDAQ"), ("ARCX", "NYSE_ARCA"), ("EDGX", "CBOE_EDGX"),
   ("MIAX", "MIAX"), ("BATX", "CBOE_BZX"), ("BATY", "CBOE_BYX"),
   ("MWSE", "MIAX_SAPPHIRE"), ("EDGA", "CBOE_EDGA"), ("AMEX", "NYSE_AMEX"),
   ("CINN", "CINCINNATI"), ("BOSX", "BOX"), ("PHLX", "NASDAQ_PHLX")]

/-- Accepted exchange codes: the keys of `EXCHANGE_MAP`. -/
def exchangeCodes : List String := exchangeMap.map (·.1)

/-- One per-venue order inside an L2 level.  `ex` is the raw exchange field
after the `or ""` default of the source (empty string when missing); `vol`
is `None` when the volume field is missing or fails `int(float(vol))`. -/
structure RawOrder where
  ex : String
  vol : Option ℚ
deriving DecidableEq, Repr

/-- Result of Python's `float(price)`: a finite value, one of the two
infinities (`float("inf")` / `float("-inf")` parse successfully), or NaN
(`float("nan")` parses successfully). -/
inductive PyFloat where
  | fin : ℚ → PyFloat
  | inf : PyFloat
  | ninf : PyFloat
  | nan : PyFloat
deriving DecidableEq, Repr

/-- Python's `x <= 0` on a parsed float: `inf <= 0` and `nan <= 0` are both
`False`, `-inf <= 0` is `True`. -/
def PyFloat.leZero : PyFloat → Bool
  | .fin q => decide (q ≤ 0)
  | .inf => false
  | .ninf => true
  | .nan => false

/-- A parsed price that is a finite number strictly greater than zero, the
requirement stated by the specification for normalized rows. -/
def PyFloat.finitePos : PyFloat → Bool
  | .fin q => decide (0 < q)
  | _ => false

/-- One L2 price level.  `price` is `None` when the price field is missing
or `float(price)` raises; a successful parse may be finite, infinite or
NaN. -/
structure RawLevel where
  price : Option PyFloat
  orders : List RawOrder
deriving DecidableEq, Repr

/-- A raw L2 payload for one symbol: a bid list and an ask list. -/
structure RawPayload where
  bids : List RawLevel
  asks : List RawLevel
deriving DecidableEq, Repr

/-- A `{"EX": ..., "SIZE": ..., "PRICE": ...}` row as produced by
`_flatten_l2`: the parsed price is carried through unchanged, so it may be
non-finite. -/
structure NormRow where
  ex : String
  size : ℤ
  price : PyFloat
deriving DecidableEq, Repr

/-- The normalized output of `_flatten_l2`. -/
structure NormBook where
  bids : List NormRow
  asks : List NormRow
deriving DecidableEq, Repr

/-- A book row with a finite rational price, the shape assumed by the
downstream consumers (`process_book` and the price resolution in
`on_book`), which re-validate `size > 0 and price > 0` per row. -/
structure BookRow where
  ex : String
  size : ℤ
  price : ℚ
deriving DecidableEq, Repr

/-- A book of finite-priced rows, the input shape of `process_book`. -/
structure Book where
  bids : List BookRow
  asks : List BookRow
deriving DecidableEq, Repr

/-- Python's `int(float(v))`: truncation toward zero. -/
def truncToInt (q : ℚ) : ℤ := if 0 ≤ q then ⌊q⌋ else ⌈q⌉

/-- ASCII uppercase of one character, as Python's `str.upper()` acts on the
ASCII exchange codes of the feed. -/
def upChar (c : Char) : Char :=
  if 'a' ≤ c ∧ c ≤ 'z' then Char.ofNat (c.toNat - 32) else c

/-- ASCII uppercase of a string (`str.upper()` on feed exchange codes). -/
def upStr (s : String) : String := ⟨s.data.map upChar⟩

/-- Validation of a single order within a level (`_flatten_l2` lines
177-195): uppercase the exchange code, apply the `NSDQ → NASDAQ` alias,
require membership in `EXCHANGE_MAP` and a positive integer volume. -/
def parseOrder (priceF : PyFloat) (o : RawOrder) : Option NormRow :=
  let ex₀ := upStr o.ex
  let ex := if ex₀ = "NSDQ" then "NASDAQ" else ex₀
  if ex = "" ∨ ex ∉ exchangeCodes then none
  else
    match o.vol with
    | none => none
    | some v =>
        let volI := truncToInt v
        if volI ≤ 0 then none else some ⟨ex, volI, priceF⟩

/-- Validation of one L2 level (`_flatten_l2` lines 149-195): drop the level
when the price is missing/unparseable, when `price_f <= 0` (which keeps
`inf` and NaN, since both comparisons are `False` in Python), or when it
carries no orders; otherwise keep its valid orders. -/
def parseLevel (level : RawLevel) : List NormRow :=
  match level.price with
  | none => []
  | some priceF =>
      if priceF.leZero then []
      else if level.orders = [] then []
      else level.orders.filterMap (parseOrder priceF)

/-- Embedding of `_flatten_l2` (grok.py lines 129-230): normalize a raw L2
payload into validated bid and ask rows; invalid levels and orders are
dropped individually and the rest is returned. -/
def flattenL2 (p : RawPayload) : NormBook :=
  { bids := p.bids.flatMap parseLevel
    asks := p.asks.flatMap parseLevel }

/-!  Book metrics (`grok.py process_book`, lines 244-319). -/

/-- Minimum of a list of rationals (`min(ask_prices)`), `none` on `[]`. -/
def listMinQ : List ℚ → Option ℚ
  | [] => none
  | x :: xs =>
    match listMinQ xs with
    | none => some x
    | some y => some (min x y)

/-- Maximum of a list of rationals (`max(bid_prices)`), `none` on `[]`. -/
def listMaxQ : List ℚ → Option ℚ
  | [] => none
  | x :: xs =>
    match listMaxQ xs with
    | none => some x
    | some y => some (max x y)

/-- Rows of one side that pass `process_book`'s `size > 0 and price > 0`
filter (lines 250-270). -/
def validRows (rows : List BookRow) : List BookRow :=
  rows.filter (fun r => decide (0 < r.size ∧ 0 < r.price))

/-- First-occurrence deduplication, matching Python dict key insertion
order for `venue_cells`. -/
def dedupFirst (l : List String) : List String :=
  l.foldl (fun acc x => if x ∈ acc then acc else acc ++ [x]) []

/-- The venues present in `venue_cells`: every exchange with at least one
valid bid or ask row, in first-appearance order (bids before asks). -/
def venueKeys (b : Book) : List String :=
  dedupFirst ((validRows b.bids).map (·.ex) ++ (validRows b.asks).map (·.ex))

/-- Sum of valid bid sizes for a venue (`venue_cells[ex][0]`). -/
def bidSumOf (b : Book) (ex : String) : ℤ :=
  (((validRows b.bids).filter (fun r => decide (r.ex = ex))).map (·.size)).sum

/-- Sum of valid ask sizes for a venue (`venue_cells[ex][1]`). -/
def askSumOf (b : Book) (ex : String) : ℤ :=
  (((validRows b.asks).filter (fun r => decide (r.ex = ex))).map (·.size)).sum

/-- Valid bid prices collected for a venue (`venue_prices[ex][0]`). -/
def bidPricesOf (b : Book) (ex : String) : List ℚ :=
  ((validRows b.bids).filter (fun r => decide (r.ex = ex))).map (·.price)

/-- Valid ask prices collected for a venue (`venue_prices[ex][1]`). -/
def askPricesOf (b : Book) (ex : String) : List ℚ :=
  ((validRows b.asks).filter (fun r => decide (r.ex = ex))).map (·.price)

/-- Venue validity test of `process_book` (lines 285-298): both sides have
at least one price and `(min(ask_prices) - max(bid_prices)) * 100` is at
most `MAX_RANGE_CENTS`. -/
def venueValid (maxRangeCents : ℤ) (b : Book) (ex : String) : Bool :=
  match listMaxQ (bidPricesOf b ex), listMinQ (askPricesOf b ex) with
  | some bmax, some amin => decide ((amin - bmax) * 100 ≤ (maxRangeCents : ℚ))
  | _, _ => false

/-- Result record of `process_book`, mirroring the `BookMetrics` dataclass.
`per_venue` keeps `(venue, bid_sum, ask_sum)` triples; the float `inf`
ratios are represented by `none`. -/
structure BookMetrics where
  totalBids : ℤ
  totalAsks : ℤ
  ratioAskToBid : Option ℚ
  ratioBidToAsk : Option ℚ
  askHeavyVenues : ℕ
  bidHeavyVenues : ℕ
  perVenue : List (String × ℤ × ℤ)
  validExchanges : ℕ
deriving DecidableEq, Repr

/-- The accumulation loop of `process_book` (lines 272-302): walk the
venues, and for each valid one record it in `valid_venues`, bump
`valid_exchanges` and add its sums into the totals. -/
def processBookFold (maxRangeCents : ℤ) (b : Book) :
    List (String × ℤ × ℤ) × ℕ × ℤ × ℤ :=
  (venueKeys b).foldl
    (fun acc ex =>
      if venueValid maxRangeCents b ex then
        (acc.1 ++ [(ex, bidSumOf b ex, askSumOf b ex)], acc.2.1 + 1,
         acc.2.2.1 + bidSumOf b ex, acc.2.2.2 + askSumOf b ex)
      else acc)
    ([], 0, 0, 0)

/-- Embedding of `process_book` (grok.py lines 244-319). -/
def processBook (maxRangeCents : ℤ) (b : Book) : BookMetrics :=
  let folded := processBookFold maxRangeCents b
  let valid := folded.1
  let totalBids := folded.2.2.1
  let totalAsks := folded.2.2.2
  { totalBids := totalBids
    totalAsks := totalAsks
    ratioAskToBid := if 0 < totalBids then some ((totalAsks : ℚ) / totalBids) else none
    ratioBidToAsk := if 0 < totalAsks then some ((totalBids : ℚ) / totalAsks) else none
    askHeavyVenues := (valid.filter (fun v => decide (v.2.1 < v.2.2))).length
    bidHeavyVenues := (valid.filter (fun v => decide (v.2.2 < v.2.1))).length
    perVenue := valid
    validExchanges := folded.2.1 }

/-!  Alert price resolution (`grok.py on_book` lines 556-572 and the
`last_l1` store filled by `on_level1`, lines 420-459). -/

/-- The price fields of a stored L1 payload (`last_l1[sym]`); each is
`none` when the field is absent from the payload. -/
structure L1Data where
  lastPrice : Option ℚ
  bidPrice : Option ℚ
  askPrice : Option ℚ
  closePrice : Option ℚ
deriving DecidableEq, Repr

/-- `max((b.get("PRICE", 0) for b in book["BIDS"]), default=0.0)`. -/
def topBidPrice (b : Book) : ℚ := (listMaxQ (b.bids.map (·.price))).getD 0

/-- `min((a.get("PRICE", 0) for a in book["ASKS"]), default=0.0)`. -/
def topAskPrice (b : Book) : ℚ := (listMinQ (b.asks.map (·.price))).getD 0

/-- Embedding of the alert price resolution in `on_book` (grok.py lines
556-566): read `LAST_PRICE` from the stored L1 payload (default `0.0`),
and fall back to the book midpoint when that price is falsy and both a top
bid and a top ask are truthy. -/
def resolveAlertPrice (l1 : Option L1Data) (b : Book) : ℚ :=
  let price := match l1 with
    | none => 0
    | some d => d.lastPrice.getD 0
  let bidPrice := topBidPrice b
  let askPrice := topAskPrice b
  if price = 0 ∧ bidPrice ≠ 0 ∧ askPrice ≠ 0 then (bidPrice + askPrice) / 2
  else price

/-- Modelled from the spec: the price-resolution order claimed in §4.3
step 9 — "last L1 LAST_PRICE → else L1 BID/ASK/CLOSE → else book midpoint
`(top_bid + top_ask)/2` if both exist". -/
def specResolvePrice (l1 : Option L1Data) (b : Book) : ℚ :=
  let mid := if topBidPrice b ≠ 0 ∧ topAskPrice b ≠ 0
    then (topBidPrice b + topAskPrice b) / 2 else 0
  match l1 with
  | none => mid
  | some d =>
    match d.lastPrice with
    | some v => v
    | none =>
      match d.bidPrice with
      | some v => v
      | none =>
        match d.askPrice with
        | some v => v
        | none =>
          match d.closePrice with
          | some v => v
          | none => mid

/-!  Imbalance detector gating (`grok.py on_book`, lines 547-681),
modelled for one symbol.  A book event carries the metrics-derived counts
and the smoothed volume used by the gates. -/

/-- Detector configuration knobs relevant to alert gating. -/
structure DetectorCfg where
  minImbalanceDurationSec : ℚ
  alertThrottleSec : ℚ
  minVolume : ℚ
  minAskHeavy : ℕ
  minBidHeavy : ℕ
  disableBidHeavy : Bool
deriving DecidableEq, Repr

/-- One processed book update for the symbol: its wall-clock time, the
heavy-venue counts and valid-exchange count of its `BookMetrics`, and the
`vol_per_min` computed from the rolling window. -/
structure BookEvent where
  now : ℚ
  askHeavyVenues : ℕ
  bidHeavyVenues : ℕ
  validExchanges : ℕ
  volPerMin : ℚ
deriving DecidableEq, Repr

/-- Per-symbol detector state: the bounded imbalance ring
(`last_imbalance[sym]`, newest first, capacity 200) and the last alert
time (`last_alert[sym]`). -/
structure DetectorState where
  ring : List (ℚ × Direction)
  lastAlert : Option ℚ
deriving DecidableEq, Repr

/-- An emitted alert with the duration that passed the dwell gate. -/
structure DetAlert where
  ts : ℚ
  direction : Direction
  dwell : ℚ
deriving DecidableEq, Repr

/-- Candidate direction of `on_book` (lines 606-610): bid-heavy requires a
`+4` venue gap and not being globally disabled; otherwise ask-heavy with a
`+4` gap; otherwise none. -/
def candidateDirection (cfg : DetectorCfg) (e : BookEvent) : Option Direction :=
  if ¬cfg.disableBidHeavy ∧ e.askHeavyVenues + 4 ≤ e.bidHeavyVenues then some .bidHeavy
  else if e.bidHeavyVenues + 4 ≤ e.askHeavyVenues then some .askHeavy
  else none

/-- The backwards ring scan of `on_book` (lines 616-620): walk from the
newest entry while the direction matches and return the timestamp of the
oldest entry of that streak (`first_ts`). -/
def firstMatchingTs : List (ℚ × Direction) → Direction → Option ℚ
  | [], _ => none
  | (ts, d') :: rest, d =>
      if d' = d then some ((firstMatchingTs rest d).getD ts) else none

/-- Embedding of the alert-decision tail of `on_book` (grok.py lines
606-681) for one symbol: determine the candidate direction, append to the
ring, compute the dwell duration, and emit an alert when the dwell,
valid-exchange, volume and throttle gates all pass, updating
`last_alert` on emission. -/
def onBookStep (cfg : DetectorCfg) (st : DetectorState) (e : BookEvent) :
    DetectorState × Option DetAlert :=
  match candidateDirection cfg e with
  | none => (st, none)
  | some d =>
    let ring' := ((e.now, d) :: st.ring).take 200
    let dur := e.now - (firstMatchingTs ring' d).getD e.now
    let throttleOk := match st.lastAlert with
      | none => true
      | some t => decide (cfg.alertThrottleSec ≤ e.now - t)
    if cfg.minImbalanceDurationSec ≤ dur ∧
        max cfg.minAskHeavy cfg.minBidHeavy ≤ e.validExchanges ∧
        cfg.minVolume ≤ e.volPerMin ∧ throttleOk = true then
      ({ ring := ring', lastAlert := some e.now }, some ⟨e.now, d, dur⟩)
    else
      ({ ring := ring', lastAlert := st.lastAlert }, none)

/-- Process a sequence of book events from a given detector state,
collecting the emitted alerts in order. -/
def processBookEvents (cfg : DetectorCfg) (st : DetectorState) :
    List BookEvent → DetectorState × List DetAlert
  | [] => (st, [])
  | e :: rest =>
    let step := onBookStep cfg st e
    let tail := processBookEvents cfg step.1 rest
    (tail.1, step.2.toList ++ tail.2)

/-!  Trade decision engine (`live_trader.py LiveTrader._handle_alert`,
lines 949-1016, together with `_submit_order`, lines 728-947), modelled
for one symbol.  Executor and broker nondeterminism (limit fills, partial
fills, timeouts, cancel outcomes) is abstracted as an oracle of outcomes
consumed in program order. -/

/-- Engine sizing configuration (`LIVE_POSITION_SIZE` / `LIVE_SHORT_SIZE`). -/
structure EngineCfg where
  positionSize : ℕ
  shortSize : ℕ
deriving DecidableEq, Repr

/-- Observable outcome of one `_submit_order` call.  `success` is its
boolean return value; `partFilled` is the total quantity recorded through
`_record_fill` when the call fails (the source guarantees a successful call
records exactly `qty`); `leavesOutstanding` tells whether an entry remains
in `outstanding_limits` afterwards (unfilled remainder whose cancel failed,
or a repriced resubmission). -/
structure OrderOutcome where
  success : Bool
  partFilled : ℕ
  leavesOutstanding : Bool
deriving DecidableEq, Repr

/-- Observable outcome of `_reconcile_outstanding_limit` for one alert:
how much of the outstanding remainder got filled in the meantime, and
whether the order is still working (in which case the alert is skipped). -/
structure ReconcileOutcome where
  extraFilled : ℕ
  stillBlocked : Bool
deriving DecidableEq, Repr

/-- An entry of `outstanding_limits` for the symbol: the side of the
working order and its unrecorded remainder. -/
structure OutstandingEntry where
  side : Side
  remaining : ℕ
deriving DecidableEq, Repr

/-- Engine state for one symbol: the signed position (`positions[sym]`,
0 when absent) and the outstanding limit entry, if any. -/
structure EngineState where
  position : ℤ
  outstanding : Option OutstandingEntry
deriving DecidableEq, Repr

/-- The oracle: order outcomes and reconcile outcomes, consumed in
program order.  An exhausted list behaves as a failed submission with
nothing filled (and a cleared, unblocked reconcile). -/
structure ExecOracle where
  orders : List OrderOutcome
  recs : List ReconcileOutcome
deriving DecidableEq, Repr

/-- Pop the next order outcome. -/
def takeOrder (o : ExecOracle) : OrderOutcome × ExecOracle :=
  match o.orders with
  | [] => (⟨false, 0, false⟩, o)
  | x :: rest => (x, { o with orders := rest })

/-- Pop the next reconcile outcome. -/
def takeRec (o : ExecOracle) : ReconcileOutcome × ExecOracle :=
  match o.recs with
  | [] => (⟨0, false⟩, o)
  | x :: rest => (x, { o with recs := rest })

/-- Abstraction of `_submit_order` (live_trader.py lines 728-947): it
first drops any outstanding entry for the symbol, records fills through
`_record_fill` (exactly `qty` in total when it returns `True`, some
`partFilled ≤ qty` otherwise), and may leave an outstanding entry for the
unrecorded remainder when it fails.  Returns its boolean result, the new
state and the remaining oracle. -/
def submitOrder (st : EngineState) (side : Side) (qty : ℕ) (ora : ExecOracle) :
    Bool × EngineState × ExecOracle :=
  let next := takeOrder ora
  let o := next.1
  let recorded := if o.success then qty else min o.partFilled qty
  let pos' := st.position + sideDelta side recorded
  let outst :=
    if o.success = false ∧ o.leavesOutstanding = true ∧ recorded < qty then
      some ⟨side, qty - recorded⟩
    else none
  (o.success, { position := pos', outstanding := outst }, next.2)

/-- The body of `_handle_alert` after the outstanding-limit gate
(live_trader.py lines 961-1016): the flip-only decision tree. -/
def handleAlertBody (cfg : EngineCfg) (st : EngineState) (d : Direction)
    (ora : ExecOracle) : EngineState × ExecOracle :=
  match d with
  | .askHeavy =>
    if st.position < 0 then (st, ora)
    else if 0 < st.position then
      let sell := submitOrder st .SELL st.position.toNat ora
      if sell.1 then
        let short := submitOrder sell.2.1 .SHORT cfg.shortSize sell.2.2
        (short.2.1, short.2.2)
      else (sell.2.1, sell.2.2)
    else
      let short := submitOrder st .SHORT cfg.shortSize ora
      (short.2.1, short.2.2)
  | .bidHeavy =>
    if 0 < st.position then (st, ora)
    else if st.position < 0 then
      let cover := submitOrder st .COVER (-st.position).toNat ora
      if cover.1 then
        let buy := submitOrder cover.2.1 .BUY cfg.positionSize cover.2.2
        (buy.2.1, buy.2.2)
      else (cover.2.1, cover.2.2)
    else
      let buy := submitOrder st .BUY cfg.positionSize ora
      (buy.2.1, buy.2.2)

/-- Embedding of `_handle_alert` (live_trader.py lines 949-1016): when an
outstanding limit exists it is reconciled first — late fills are applied
and, if the order is still working, the alert is skipped to avoid double
exposure; otherwise the flip-only decision tree runs. -/
def handleAlert (cfg : EngineCfg) (st : EngineState) (d : Direction)
    (ora : ExecOracle) : EngineState × ExecOracle :=
  match st.outstanding with
  | none => handleAlertBody cfg st d ora
  | some e =>
    let next := takeRec ora
    let r := next.1
    let applied := min r.extraFilled e.remaining
    let pos₁ := st.position + sideDelta e.side applied
    if r.stillBlocked then
      ({ position := pos₁, outstanding := some ⟨e.side, e.remaining - applied⟩ }, next.2)
    else
      handleAlertBody cfg { position := pos₁, outstanding := none } d next.2

/-- Process a sequence of alert directions for one symbol. -/
def processAlerts (cfg : EngineCfg) (st : EngineState) :
    List Direction → ExecOracle → EngineState × ExecOracle
  | [], ora => (st, ora)
  | d :: rest, ora =>
    let step := handleAlert cfg st d ora
    processAlerts cfg step.1 rest step.2

/-- The flip-only transition relation of §4.6, as a decidable check: an
ask-heavy alert may only keep the position, flatten it, or open the short
size (and must skip when already short); symmetrically for bid-heavy. -/
def flipAllowed (cfg : EngineCfg) (pos : ℤ) (d : Direction) (pos' : ℤ) : Bool :=
  match d with
  | .askHeavy =>
    if pos < 0 then pos' == pos
    else pos' == pos || pos' == 0 || pos' == -(cfg.shortSize : ℤ)
  | .bidHeavy =>
    if 0 < pos then pos' == pos
    else pos' == pos || pos' == 0 || pos' == (cfg.positionSize : ℤ)

/-- Every step of an alert run takes an allowed flip-only transition. -/
def flipRun (cfg : EngineCfg) (st : EngineState) :
    List Direction → ExecOracle → Bool
  | [], _ => true
  | d :: rest, ora =>
    let step := handleAlert cfg st d ora
    flipAllowed cfg st.position d step.1.position && flipRun cfg step.1 rest step.2

/-- Position values permitted by the flip-only invariant. -/
def flipPositions (cfg : EngineCfg) (pos : ℤ) : Bool :=
  pos == 0 || pos == (cfg.positionSize : ℤ) || pos == -(cfg.shortSize : ℤ)

/-- An oracle is clean when every order outcome is all-or-nothing (a failed
submission records no partial fill) and never leaves an outstanding limit. -/
def cleanOracle (ora : ExecOracle) : Prop :=
  ∀ o ∈ ora.orders, (o.success = true ∨ o.partFilled = 0) ∧ o.leavesOutstanding = false

/-!  Helper lemmas. -/

theorem roundHalfEven_sub_le (x : ℚ) : |(roundHalfEven x : ℚ) - x| ≤ 1/2 := by
  have h₀ : (0:ℚ) ≤ x - ⌊x⌋ := by linarith [Int.floor_le x]
  have h₁ : x - ⌊x⌋ < 1 := by linarith [Int.lt_floor_add_one x]
  unfold roundHalfEven
  split_ifs with h hlt hev <;> rw [abs_le] <;> push_cast <;> constructor <;> linarith

theorem roundTo4_sub_le (x : ℚ) : |roundTo4 x - x| ≤ 1/20000 := by
  have h := roundHalfEven_sub_le (x * 10000)
  unfold roundTo4
  rw [abs_le] at h ⊢
  constructor <;> linarith [h.1, h.2]

/-- Claim C9 counterexample: with `qty = 3`, a previously seen fill count of
`5` and a newly reported count of `6`, `_apply_filled_delta` returns `3`,
strictly below the previous seen value, refuting the claimed monotonicity
of the returned seen value. -/
theorem applyFilledDelta_seen_can_decrease :
    (applyFilledDelta 3 6 5).1 = 3 ∧ ¬ ((5:ℤ) ≤ (applyFilledDelta 3 6 5).1) := by
  decide

/-- Claim C9 (amended): provided the previously seen count does not exceed
the ordered quantity (as every call site maintains), `_apply_filled_delta`
returns a seen value that is monotonic non-decreasing and at most `qty`,
records exactly the positive part of `min(filled_qty, qty) −
filled_qty_seen`, leaves the state unchanged on a reported decrease, and
advances the seen value by exactly the recorded delta. -/
theorem applyFilledDelta_spec (qty filledQty seen : ℤ) (hseen : seen ≤ qty) :
    seen ≤ (applyFilledDelta qty filledQty seen).1 ∧
    (applyFilledDelta qty filledQty seen).1 ≤ qty ∧
    (applyFilledDelta qty filledQty seen).2 = max (min filledQty qty - seen) 0 ∧
    (filledQty < seen → applyFilledDelta qty filledQty seen = (seen, 0)) ∧
    (applyFilledDelta qty filledQty seen).1 =
      seen + (applyFilledDelta qty filledQty seen).2 := by
  simp only [applyFilledDelta, apply_ite Prod.fst, apply_ite Prod.snd]
  split_ifs <;> simp_all <;> omega

/-- Witness for the amended claim C9 at a concrete call. -/
theorem applyFilledDelta_spec_witness :
    (2:ℤ) ≤ 10 ∧
    ((2:ℤ) ≤ (applyFilledDelta 10 7 2).1 ∧
     (applyFilledDelta 10 7 2).1 ≤ 10 ∧
     (applyFilledDelta 10 7 2).2 = max (min 7 10 - 2) 0 ∧
     ((7:ℤ) < 2 → applyFilledDelta 10 7 2 = (2, 0)) ∧
     (applyFilledDelta 10 7 2).1 = 2 + (applyFilledDelta 10 7 2).2) :=
  ⟨by decide, applyFilledDelta_spec 10 7 2 (by decide)⟩

/-- Claim C5 counterexample: with the default 10 bps slippage and reference
price `0.02`, the 4-decimal rounding cancels the pad on both sides:
`pad(BUY, 0.02) = 0.02` (not `> 0.02`) and `pad(SELL, 0.02) = 0.02`
(not `< 0.02`). -/
theorem aggressiveLimitPrice_not_strict :
    aggressiveLimitPrice 10 Side.BUY (1/50) = 1/50 ∧
    aggressiveLimitPrice 10 Side.SELL (1/50) = 1/50 := by
  constructor <;>
    norm_num [aggressiveLimitPrice, roundTo4, roundHalfEven, Side.isBuySide, max_def]

/-- Claim C5 (amended): the strict padding inequalities hold once the pad
exceeds the 4-decimal rounding granularity, i.e. `ref × bps > 1/2`
(equivalently `ref × bps/10000 > 0.00005`), and, on the sell side, the
reference price lies strictly above the `0.01` clamp floor. -/
theorem aggressiveLimitPrice_spec (bps ref : ℚ) (s : Side)
    (hbps : 0 < bps) (hpad : 1/2 < ref * bps) :
    (s.isBuySide = true → ref < aggressiveLimitPrice bps s ref) ∧
    (s.isBuySide = false → 1/100 < ref → aggressiveLimitPrice bps s ref < ref) := by
  have href : 0 < ref := by
    rcases le_or_lt ref 0 with h | h
    · exfalso; nlinarith
    · exact h
  have hmax : max bps 0 = bps := max_eq_left hbps.le
  constructor
  · intro hside
    have hb := roundTo4_sub_le (ref * (1 + bps / 10000))
    rw [abs_le] at hb
    have hlt : ref < roundTo4 (ref * (1 + bps / 10000)) := by nlinarith [hb.1]
    simp only [aggressiveLimitPrice, if_neg (not_le.mpr href), hside, if_pos, hmax]
    exact lt_of_lt_of_le hlt (le_max_left _ _)
  · intro hside h100
    have hb := roundTo4_sub_le (ref * (1 - bps / 10000))
    rw [abs_le] at hb
    have hlt : roundTo4 (ref * (1 - bps / 10000)) < ref := by nlinarith [hb.2]
    simp only [aggressiveLimitPrice, if_neg (not_le.mpr href), hside, hmax,
      Bool.false_eq_true, if_neg (Bool.false_ne_true)]
    exact max_lt hlt h100

/-- Witness for the amended claim C5 at `bps = 10`, `ref = 1`. -/
theorem aggressiveLimitPrice_spec_witness :
    ((0:ℚ) < 10 ∧ (1:ℚ)/2 < 1 * 10) ∧
    (1 < aggressiveLimitPrice 10 Side.BUY 1 ∧
     aggressiveLimitPrice 10 Side.SELL 1 < 1) :=
  ⟨⟨by norm_num, by norm_num⟩,
   (aggressiveLimitPrice_spec 10 1 Side.BUY (by norm_num) (by norm_num)).1 rfl,
   (aggressiveLimitPrice_spec 10 1 Side.SELL (by norm_num) (by norm_num)).2 rfl (by norm_num)⟩

/-- Claim C1 counterexample: a confirmed market BUY fill at `10.99`, whose
price fraction `0.99` lies inside the claimed `[0.985, 0.995]` band, does
not engage emergency shutdown (starting from a clean trader state with the
default 60 trades/hour limit): `_record_fill` has no price-band guard. -/
theorem recordFill_no_badfill_guard :
    specBadFillGuardTriggers Side.BUY (1099/100) = true ∧
    (confirmMarketFill 60 Side.BUY 100 (1099/100) 0 ⟨0, [], false⟩).shutdown = false := by
  constructor
  · norm_num [specBadFillGuardTriggers, priceFraction, Side.isBuySide]
  · norm_num [confirmMarketFill, recordFill, enforceTradeRateLimit, sideDelta,
      List.filter]

/-- Claim C1 (amended): a confirmed market fill is processed independently
of its price — `_record_fill` never inspects it — and emergency shutdown is
engaged after a fill exactly when it was already engaged or the rolling
hourly trade count exceeds `max_trades_per_hour`. -/
theorem confirmMarketFill_price_independent (maxTrades : ℕ) (s : Side) (qty : ℕ)
    (p₁ p₂ now : ℚ) (st : TraderRisk) :
    confirmMarketFill maxTrades s qty p₁ now st =
      confirmMarketFill maxTrades s qty p₂ now st ∧
    ((confirmMarketFill maxTrades s qty p₁ now st).shutdown = true ↔
      st.shutdown = true ∨
        maxTrades <
          ((st.tradeTimes ++ [now]).filter (fun ts => decide (now - 3600 ≤ ts))).length) := by
  refine ⟨rfl, ?_⟩
  simp [confirmMarketFill, recordFill, enforceTradeRateLimit]

/-- Claim C8 counterexample: the stored L1 payload for the symbol has a
`BID_PRICE` of `13.30` but no `LAST_PRICE`, and the book has top bid
`13.30` and top ask `13.40`.  The claimed resolution order would use the
L1 bid `13.30`, but `on_book` uses the book midpoint `13.35`: L1
BID/ASK/CLOSE prices are never consulted for the alert price. -/
theorem resolveAlertPrice_skips_l1_bid :
    resolveAlertPrice (some ⟨none, some (133/10), none, none⟩)
        ⟨[⟨"NYSE", 100, 133/10⟩], [⟨"NYSE", 100, 134/10⟩]⟩ = 267/20 ∧
    specResolvePrice (some ⟨none, some (133/10), none, none⟩)
        ⟨[⟨"NYSE", 100, 133/10⟩], [⟨"NYSE", 100, 134/10⟩]⟩ = 133/10 ∧
    (267/20 : ℚ) ≠ 133/10 := by
  refine ⟨?_, ?_, by norm_num⟩
  · norm_num [resolveAlertPrice, topBidPrice, topAskPrice, listMaxQ, listMinQ]
  · norm_num [specResolvePrice, topBidPrice, topAskPrice, listMaxQ, listMinQ]

/-- Claim C8 (amended): the alert price is the stored L1 payload's
`LAST_PRICE` when present and nonzero; otherwise the book midpoint when
both top-of-book prices are nonzero; and the stored payload's
BID/ASK/CLOSE fields never influence the result. -/
theorem resolveAlertPrice_spec (d : L1Data) (l1 : Option L1Data) (b : Book) (v : ℚ) :
    (d.lastPrice = some v → v ≠ 0 → resolveAlertPrice (some d) b = v) ∧
    ((match l1 with | none => (0:ℚ) | some d' => d'.lastPrice.getD 0) = 0 →
      topBidPrice b ≠ 0 → topAskPrice b ≠ 0 →
      resolveAlertPrice l1 b = (topBidPrice b + topAskPrice b) / 2) ∧
    (∀ b' a' c', resolveAlertPrice (some d) b =
      resolveAlertPrice (some ⟨d.lastPrice, b', a', c'⟩) b) := by
  refine ⟨?_, ?_, fun b' a' c' => rfl⟩
  · intro hl hv
    simp [resolveAlertPrice, hl, hv]
  · intro h0 hb ha
    simp only [resolveAlertPrice]
    rw [if_pos]
    cases l1 with
    | none => exact ⟨rfl, hb, ha⟩
    | some d' => exact ⟨by simpa using h0, hb, ha⟩

/-- Witness for the amended claim C8. -/
theorem resolveAlertPrice_spec_witness :
    ((⟨some 5, none, none, none⟩ : L1Data).lastPrice = some 5 ∧ (5:ℚ) ≠ 0) ∧
    resolveAlertPrice (some ⟨some 5, none, none, none⟩) ⟨[], []⟩ = 5 :=
  ⟨⟨rfl, by norm_num⟩,
   (resolveAlertPrice_spec ⟨some 5, none, none, none⟩ none ⟨[], []⟩ 5).1 rfl (by norm_num)⟩

theorem onBookStep_spec (cfg : DetectorCfg) (st : DetectorState) (e : BookEvent) :
    ((onBookStep cfg st e).2 = none ∧ (onBookStep cfg st e).1.lastAlert = st.lastAlert) ∨
    (∃ a, (onBookStep cfg st e).2 = some a ∧ a.ts = e.now ∧
      (onBookStep cfg st e).1.lastAlert = some e.now ∧
      (∀ t, st.lastAlert = some t → cfg.alertThrottleSec ≤ e.now - t)) := by
  simp only [onBookStep]
  cases hc : candidateDirection cfg e with
  | none => exact Or.inl ⟨rfl, rfl⟩
  | some d =>
    dsimp only
    split_ifs with hg
    · refine Or.inr ⟨_, rfl, rfl, rfl, ?_⟩
      intro t ht
      have hth := hg.2.2.2
      rw [ht] at hth
      exact of_decide_eq_true hth
    · exact Or.inl ⟨rfl, rfl⟩

theorem processBookEvents_throttle_aux (cfg : DetectorCfg) (evs : List BookEvent) :
    ∀ st : DetectorState,
      List.Chain' (fun a b => cfg.alertThrottleSec ≤ b.ts - a.ts)
        (processBookEvents cfg st evs).2 ∧
      (∀ a t, (processBookEvents cfg st evs).2.head? = some a →
        st.lastAlert = some t → cfg.alertThrottleSec ≤ a.ts - t) := by
  induction evs with
  | nil =>
    intro st
    simp [processBookEvents]
  | cons e rest ih =>
    intro st
    obtain ⟨ihc, ihh⟩ := ih (onBookStep cfg st e).1
    simp only [processBookEvents]
    rcases onBookStep_spec cfg st e with ⟨h2, hla⟩ | ⟨a, h2, hts, hla, hth⟩
    · rw [h2]
      simp only [Option.toList_none, List.nil_append]
      refine ⟨ihc, ?_⟩
      intro b t hb ht
      exact ihh b t hb (by rw [hla, ht])
    · rw [h2]
      simp only [Option.toList_some, List.singleton_append]
      constructor
      · rw [List.chain'_cons']
        refine ⟨?_, ihc⟩
        intro y hy
        have := ihh y e.now hy hla
        rw [hts]
        exact this
      · intro b t hb ht
        simp only [List.head?_cons, Option.some.injEq] at hb
        subst hb
        rw [hts]
        exact hth t ht

/-- Claim C3: over any sequence of book updates for a symbol (starting with
no prior alert), consecutively emitted alerts are separated by at least
`ALERT_THROTTLE_SEC`; moreover, whenever a step emits an alert it sets
`last_alert` to the emission time, and emission requires the throttle gap
from any prior alert time. -/
theorem alert_throttle_invariant (cfg : DetectorCfg) (evs : List BookEvent) :
    List.Chain' (fun a b => cfg.alertThrottleSec ≤ b.ts - a.ts)
      (processBookEvents cfg ⟨[], none⟩ evs).2 ∧
    (∀ st e a, (onBookStep cfg st e).2 = some a →
      (onBookStep cfg st e).1.lastAlert = some a.ts ∧
      (∀ t, st.lastAlert = some t → cfg.alertThrottleSec ≤ a.ts - t)) := by
  constructor
  · exact (processBookEvents_throttle_aux cfg evs ⟨[], none⟩).1
  · intro st e a ha
    rcases onBookStep_spec cfg st e with ⟨h2, _⟩ | ⟨a', h2, hts, hla, hth⟩
    · rw [ha] at h2; cases h2
    · rw [ha] at h2
      cases h2
      rw [hts]
      exact ⟨hla, hth⟩

/-- Witness for claim C3 at a concrete run emitting two alerts 100 seconds
apart under a 60-second throttle, and at a concrete emitting step that
updates `last_alert`. -/
theorem alert_throttle_invariant_witness :
    (processBookEvents ⟨0, 60, 0, 1, 1, false⟩ ⟨[], none⟩
      [⟨0, 5, 0, 1, 0⟩, ⟨100, 5, 0, 1, 0⟩]).2 =
      [⟨0, .askHeavy, 0⟩, ⟨100, .askHeavy, 100⟩] ∧
    List.Chain' (fun a b => (⟨0, 60, 0, 1, 1, false⟩ : DetectorCfg).alertThrottleSec ≤ b.ts - a.ts)
      (processBookEvents ⟨0, 60, 0, 1, 1, false⟩ ⟨[], none⟩
        [⟨0, 5, 0, 1, 0⟩, ⟨100, 5, 0, 1, 0⟩]).2 ∧
    ((onBookStep ⟨0, 60, 0, 1, 1, false⟩ ⟨[], none⟩ ⟨0, 5, 0, 1, 0⟩).2 =
        some ⟨0, .askHeavy, 0⟩ ∧
      (onBookStep ⟨0, 60, 0, 1, 1, false⟩ ⟨[], none⟩ ⟨0, 5, 0, 1, 0⟩).1.lastAlert =
        some (⟨0, .askHeavy, 0⟩ : DetAlert).ts) := by
  have hstep : (onBookStep ⟨0, 60, 0, 1, 1, false⟩ ⟨[], none⟩ ⟨0, 5, 0, 1, 0⟩).2 =
      some ⟨0, .askHeavy, 0⟩ := by
    norm_num [onBookStep, candidateDirection, firstMatchingTs]
  refine ⟨?_, (alert_throttle_invariant ⟨0, 60, 0, 1, 1, false⟩
      [⟨0, 5, 0, 1, 0⟩, ⟨100, 5, 0, 1, 0⟩]).1, hstep,
    ((alert_throttle_invariant ⟨0, 60, 0, 1, 1, false⟩
      [⟨0, 5, 0, 1, 0⟩, ⟨100, 5, 0, 1, 0⟩]).2 ⟨[], none⟩ ⟨0, 5, 0, 1, 0⟩
      ⟨0, .askHeavy, 0⟩ hstep).1⟩
  norm_num [processBookEvents, onBookStep, candidateDirection, firstMatchingTs]

/-- Claim C4: an alert is emitted by a book update only when the ring scan
from the newest entry backwards (stopping at the first direction change)
spans at least `MIN_IMBALANCE_DURATION_SEC`: the emitted dwell equals
`now - first_matching_ts` over the post-append ring and meets the minimum. -/
theorem alert_dwell_gate (cfg : DetectorCfg) (st : DetectorState) (e : BookEvent)
    (a : DetAlert) (h : (onBookStep cfg st e).2 = some a) :
    ∃ d, candidateDirection cfg e = some d ∧
      a.dwell = e.now -
        (firstMatchingTs (((e.now, d) :: st.ring).take 200) d).getD e.now ∧
      cfg.minImbalanceDurationSec ≤ a.dwell := by
  revert h
  simp only [onBookStep]
  cases hc : candidateDirection cfg e with
  | none => intro h; cases h
  | some d =>
    dsimp only
    split_ifs with hg
    · intro h
      simp only [Option.some.injEq] at h
      subst h
      exact ⟨d, rfl, rfl, hg.1⟩
    · intro h; cases h

/-- Witness for claim C4 at a concrete emitting step. -/
theorem alert_dwell_gate_witness :
    (onBookStep ⟨0, 60, 0, 1, 1, false⟩ ⟨[], none⟩ ⟨0, 5, 0, 1, 0⟩).2 =
      some ⟨0, .askHeavy, 0⟩ ∧
    (∃ d, candidateDirection ⟨0, 60, 0, 1, 1, false⟩ ⟨0, 5, 0, 1, 0⟩ = some d ∧
      (⟨0, .askHeavy, 0⟩ : DetAlert).dwell = (0:ℚ) -
        (firstMatchingTs ((((0:ℚ), d) :: ([] : List (ℚ × Direction))).take 200) d).getD 0 ∧
      (⟨0, 60, 0, 1, 1, false⟩ : DetectorCfg).minImbalanceDurationSec ≤
        (⟨0, .askHeavy, 0⟩ : DetAlert).dwell) := by
  have h : (onBookStep ⟨0, 60, 0, 1, 1, false⟩ ⟨[], none⟩ ⟨0, 5, 0, 1, 0⟩).2 =
      some ⟨0, .askHeavy, 0⟩ := by
    norm_num [onBookStep, candidateDirection, firstMatchingTs]
  exact ⟨h, alert_dwell_gate ⟨0, 60, 0, 1, 1, false⟩ ⟨[], none⟩ ⟨0, 5, 0, 1, 0⟩
    ⟨0, .askHeavy, 0⟩ h⟩

theorem parseOrder_sound (pf : PyFloat) (o : RawOrder) (r : NormRow)
    (h : parseOrder pf o = some r) :
    r.ex ∈ exchangeCodes ∧ 0 < r.size ∧ r.price = pf := by
  unfold parseOrder at h
  set ex := if upStr o.ex = "NSDQ" then "NASDAQ" else upStr o.ex with hex
  by_cases hc : ex = "" ∨ ex ∉ exchangeCodes
  · rw [if_pos hc] at h; cases h
  · rw [if_neg hc] at h
    push_neg at hc
    cases hvol : o.vol with
    | none => rw [hvol] at h; cases h
    | some v =>
      rw [hvol] at h
      dsimp only at h
      by_cases hv : truncToInt v ≤ 0
      · rw [if_pos hv] at h; cases h
      · rw [if_neg hv] at h
        rw [Option.some.injEq] at h
        subst h
        refine ⟨hc.2, ?_, rfl⟩
        show 0 < truncToInt v
        omega

theorem parseLevel_sound (lv : RawLevel) (r : NormRow) (h : r ∈ parseLevel lv) :
    PyFloat.leZero r.price = false ∧ 0 < r.size ∧ r.ex ∈ exchangeCodes := by
  revert h
  simp only [parseLevel]
  cases hp : lv.price with
  | none => intro h; exact absurd h (List.not_mem_nil r)
  | some pf =>
    dsimp only
    split_ifs with h1 h2
    · intro h; exact absurd h (List.not_mem_nil r)
    · intro h; exact absurd h (List.not_mem_nil r)
    · intro h
      rw [List.mem_filterMap] at h
      obtain ⟨o, _, ho⟩ := h
      obtain ⟨hex, hsz, hpr⟩ := parseOrder_sound pf o r ho
      exact ⟨by rw [hpr]; simpa using h1, hsz, hex⟩

/-- Claim C6 counterexample: `_flatten_l2`'s only price filter is
`price_f <= 0`, and in Python both `inf <= 0` and `nan <= 0` are `False`,
so a level whose price parses to `+inf` (or NaN) is kept: the output then
contains rows whose price is not a finite number greater than zero,
refuting the claimed finiteness of normalized prices. -/
theorem flattenL2_keeps_nonfinite_price :
    (⟨"NYSE", 5, PyFloat.inf⟩ : NormRow) ∈
      (flattenL2 ⟨[⟨some PyFloat.inf, [⟨"NYSE", some 5⟩]⟩], []⟩).bids ∧
    PyFloat.finitePos (⟨"NYSE", 5, PyFloat.inf⟩ : NormRow).price = false ∧
    (⟨"MEMX", 7, PyFloat.nan⟩ : NormRow) ∈
      (flattenL2 ⟨[], [⟨some PyFloat.nan, [⟨"MEMX", some 7⟩]⟩]⟩).asks ∧
    PyFloat.finitePos (⟨"MEMX", 7, PyFloat.nan⟩ : NormRow).price = false := by
  decide

/-- Claim C6 (amended): every row produced by `_flatten_l2` has a strictly
positive integer size and an exchange code from the closed accepted set
(after uppercasing and the `NSDQ → NASDAQ` alias), and its parsed price
survives the code's only price filter `price_f <= 0` under Python float
comparison — so it is a finite positive number, `+inf`, or NaN, but not
necessarily finite; rows violating these checks are dropped individually
and the remainder is returned. -/
theorem flattenL2_rows_valid (p : RawPayload) :
    ∀ r ∈ (flattenL2 p).bids ++ (flattenL2 p).asks,
      PyFloat.leZero r.price = false ∧ 0 < r.size ∧ r.ex ∈ exchangeCodes := by
  intro r hr
  rw [List.mem_append] at hr
  rcases hr with h | h <;>
  · simp only [flattenL2, List.mem_flatMap] at h
    obtain ⟨lv, _, hlv⟩ := h
    exact parseLevel_sound lv r hlv

/-- Witness for the amended claim C6 on a concrete payload containing one
valid finite-priced order (with the `NSDQ → NASDAQ` alias exercised) next
to an invalid one. -/
theorem flattenL2_rows_valid_witness :
    (⟨"NASDAQ", 5, .fin 10⟩ : NormRow) ∈
      (flattenL2 ⟨[⟨some (.fin 10), [⟨"nsdq", some 5⟩, ⟨"JUNK", some 7⟩]⟩], []⟩).bids ++
      (flattenL2 ⟨[⟨some (.fin 10), [⟨"nsdq", some 5⟩, ⟨"JUNK", some 7⟩]⟩], []⟩).asks ∧
    (PyFloat.leZero (⟨"NASDAQ", 5, .fin 10⟩ : NormRow).price = false ∧
     0 < (⟨"NASDAQ", 5, .fin 10⟩ : NormRow).size ∧
     (⟨"NASDAQ", 5, .fin 10⟩ : NormRow).ex ∈ exchangeCodes) := by
  have hmem : (⟨"NASDAQ", 5, .fin 10⟩ : NormRow) ∈
      (flattenL2 ⟨[⟨some (.fin 10), [⟨"nsdq", some 5⟩, ⟨"JUNK", some 7⟩]⟩], []⟩).bids ++
      (flattenL2 ⟨[⟨some (.fin 10), [⟨"nsdq", some 5⟩, ⟨"JUNK", some 7⟩]⟩], []⟩).asks := by
    decide
  exact ⟨hmem,
    flattenL2_rows_valid ⟨[⟨some (.fin 10), [⟨"nsdq", some 5⟩, ⟨"JUNK", some 7⟩]⟩], []⟩
      ⟨"NASDAQ", 5, .fin 10⟩ hmem⟩

theorem processBookFold_aux (m : ℤ) (b : Book) (keys : List String) :
    ∀ (vv : List (String × ℤ × ℤ)) (cnt : ℕ) (tb ta : ℤ),
      keys.foldl
        (fun acc ex =>
          if venueValid m b ex then
            (acc.1 ++ [(ex, bidSumOf b ex, askSumOf b ex)], acc.2.1 + 1,
             acc.2.2.1 + bidSumOf b ex, acc.2.2.2 + askSumOf b ex)
          else acc)
        (vv, cnt, tb, ta) =
      (vv ++ ((keys.filter (venueValid m b)).map
          (fun ex => (ex, bidSumOf b ex, askSumOf b ex))),
       cnt + (keys.filter (venueValid m b)).length,
       tb + ((keys.filter (venueValid m b)).map (fun ex => bidSumOf b ex)).sum,
       ta + ((keys.filter (venueValid m b)).map (fun ex => askSumOf b ex)).sum) := by
  induction keys with
  | nil => intro vv cnt tb ta; simp
  | cons k ks ih =>
    intro vv cnt tb ta
    simp only [List.foldl_cons, List.filter_cons]
    by_cases hk : venueValid m b k
    · rw [if_pos hk, if_pos hk, ih]
      simp only [List.map_cons, List.sum_cons, List.length_cons, Prod.mk.injEq]
      refine ⟨by simp, by omega, by ring, by ring⟩
    · rw [if_neg hk, if_neg hk, ih]

theorem processBookFold_eq (m : ℤ) (b : Book) :
    processBookFold m b =
      (((venueKeys b).filter (venueValid m b)).map
          (fun ex => (ex, bidSumOf b ex, askSumOf b ex)),
       ((venueKeys b).filter (venueValid m b)).length,
       (((venueKeys b).filter (venueValid m b)).map (fun ex => bidSumOf b ex)).sum,
       (((venueKeys b).filter (venueValid m b)).map (fun ex => askSumOf b ex)).sum) := by
  have h := processBookFold_aux m b (venueKeys b) [] 0 0 0
  simpa [processBookFold] using h

/-- Claim C10: `process_book` is total; when the bid total is zero the
ask-to-bid ratio is the infinity marker (and symmetrically); and the
returned metrics satisfy `valid_exchanges = |per_venue|` with the totals
equal to the sums of the per-venue side sums. -/
theorem processBook_metrics (m : ℤ) (b : Book) :
    ((processBook m b).totalBids = 0 → (processBook m b).ratioAskToBid = none) ∧
    ((processBook m b).totalAsks = 0 → (processBook m b).ratioBidToAsk = none) ∧
    (processBook m b).validExchanges = (processBook m b).perVenue.length ∧
    (processBook m b).totalBids = ((processBook m b).perVenue.map (fun v => v.2.1)).sum ∧
    (processBook m b).totalAsks = ((processBook m b).perVenue.map (fun v => v.2.2)).sum := by
  simp only [processBook, processBookFold_eq]
  refine ⟨?_, ?_, ?_, ?_, ?_⟩
  · intro h; rw [h]; simp
  · intro h; rw [h]; simp
  · simp
  · simp only [List.map_map]; rfl
  · simp only [List.map_map]; rfl

/-- Witness for claim C10 on the empty book. -/
theorem processBook_metrics_witness :
    (processBook 1 ⟨[], []⟩).totalBids = 0 ∧
    (processBook 1 ⟨[], []⟩).ratioAskToBid = none ∧
    (processBook 1 ⟨[], []⟩).totalAsks = 0 ∧
    (processBook 1 ⟨[], []⟩).ratioBidToAsk = none :=
  ⟨rfl, (processBook_metrics 1 ⟨[], []⟩).1 rfl, rfl,
   (processBook_metrics 1 ⟨[], []⟩).2.1 rfl⟩

theorem venueValid_iff (m : ℤ) (b : Book) (ex : String) :
    venueValid m b ex = true ↔
      (∃ bmax, listMaxQ (bidPricesOf b ex) = some bmax ∧
       ∃ amin, listMinQ (askPricesOf b ex) = some amin ∧
         (amin - bmax) * 100 ≤ (m : ℚ)) := by
  unfold venueValid
  cases hb : listMaxQ (bidPricesOf b ex) <;>
    cases ha : listMinQ (askPricesOf b ex) <;> simp [hb, ha]

theorem mem_dedupFirst (x : String) (l : List String) : x ∈ dedupFirst l ↔ x ∈ l := by
  have aux : ∀ (l' : List String) (acc : List String),
      x ∈ l'.foldl (fun acc y => if y ∈ acc then acc else acc ++ [y]) acc ↔
        x ∈ acc ∨ x ∈ l' := by
    intro l'
    induction l' with
    | nil => intro acc; simp
    | cons hd tl ih =>
      intro acc
      simp only [List.foldl_cons]
      by_cases hhd : hd ∈ acc
      · rw [if_pos hhd, ih]
        constructor
        · rintro (h | h)
          · exact Or.inl h
          · exact Or.inr (List.mem_cons_of_mem hd h)
        · rintro (h | h)
          · exact Or.inl h
          · rcases List.mem_cons.mp h with rfl | h
            · exact Or.inl hhd
            · exact Or.inr h
      · rw [if_neg hhd, ih]
        simp only [List.mem_append, List.mem_singleton, List.mem_cons]
        tauto
  unfold dedupFirst
  rw [aux l []]
  simp

theorem listMaxQ_some_ne_nil (l : List ℚ) (y : ℚ) (h : listMaxQ l = some y) : l ≠ [] := by
  intro hl
  subst hl
  cases h

theorem bidPrices_mem_venueKeys (b : Book) (ex : String)
    (h : bidPricesOf b ex ≠ []) : ex ∈ venueKeys b := by
  unfold bidPricesOf at h
  rcases List.exists_mem_of_ne_nil _ h with ⟨q, hq⟩
  rw [List.mem_map] at hq
  obtain ⟨r, hr, _⟩ := hq
  rw [List.mem_filter] at hr
  have hx : r.ex = ex := of_decide_eq_true hr.2
  unfold venueKeys
  rw [mem_dedupFirst, List.mem_append]
  exact Or.inl (hx ▸ List.mem_map_of_mem (·.ex) hr.1)

/-- Claim C7: a venue appears (with its bid/ask size sums) in the
`per_venue` map of `process_book` exactly when it has at least one valid
bid price and one valid ask price and its per-venue spread
`(min(asks) - max(bids)) × 100` is at most `MAX_RANGE_CENTS`. -/
theorem venue_contributes_iff (m : ℤ) (b : Book) (ex : String) :
    (ex, bidSumOf b ex, askSumOf b ex) ∈ (processBook m b).perVenue ↔
      (∃ bmax, listMaxQ (bidPricesOf b ex) = some bmax ∧
       ∃ amin, listMinQ (askPricesOf b ex) = some amin ∧
         (amin - bmax) * 100 ≤ (m : ℚ)) := by
  rw [← venueValid_iff]
  simp only [processBook, processBookFold_eq]
  constructor
  · intro h
    rw [List.mem_map] at h
    obtain ⟨y, hy, hfy⟩ := h
    rw [Prod.mk.injEq] at hfy
    rcases hfy with ⟨rfl, -⟩
    exact (List.mem_filter.mp hy).2
  · intro hv
    rw [List.mem_map]
    refine ⟨ex, ?_, rfl⟩
    rw [List.mem_filter]
    refine ⟨?_, hv⟩
    rcases (venueValid_iff m b ex).mp hv with ⟨bmax, hbmax, -⟩
    exact bidPrices_mem_venueKeys b ex (listMaxQ_some_ne_nil _ bmax hbmax)

theorem sideDelta_zero (s : Side) : sideDelta s 0 = 0 := by
  cases s <;> simp [sideDelta, Side.isBuySide]

theorem takeOrder_clean (ora : ExecOracle) (h : cleanOracle ora) :
    ((takeOrder ora).1.success = true ∨ (takeOrder ora).1.partFilled = 0) ∧
    (takeOrder ora).1.leavesOutstanding = false ∧ cleanOracle (takeOrder ora).2 := by
  obtain ⟨os, rs⟩ := ora
  cases os with
  | nil => exact ⟨Or.inr rfl, rfl, h⟩
  | cons o rest =>
    have ho := h o (List.mem_cons_self o rest)
    refine ⟨ho.1, ho.2, ?_⟩
    intro o' ho'
    exact h o' (List.mem_cons_of_mem o ho')

theorem submitOrder_clean (st : EngineState) (side : Side) (qty : ℕ)
    (ora : ExecOracle) (h : cleanOracle ora) :
    cleanOracle (submitOrder st side qty ora).2.2 ∧
    (submitOrder st side qty ora).2.1.outstanding = none ∧
    ((submitOrder st side qty ora).1 = true →
      (submitOrder st side qty ora).2.1.position = st.position + sideDelta side qty) ∧
    ((submitOrder st side qty ora).1 = false →
      (submitOrder st side qty ora).2.1.position = st.position) := by
  obtain ⟨hclean, hout, htail⟩ := takeOrder_clean ora h
  simp only [submitOrder]
  cases hs : (takeOrder ora).1.success with
  | true =>
    refine ⟨htail, ?_, fun _ => by simp [hs], fun hf => by simp [hs] at hf⟩
    simp [hs]
  | false =>
    have hp : (takeOrder ora).1.partFilled = 0 := by
      rcases hclean with h' | h'
      · rw [hs] at h'; cases h'
      · exact h'
    refine ⟨htail, ?_, fun ht => by simp [hs] at ht, fun _ => ?_⟩
    · simp [hout]
    · simp [hs, hp, sideDelta_zero]

theorem handleAlertBody_clean (cfg : EngineCfg) (st : EngineState) (d : Direction)
    (ora : ExecOracle) (hc : cleanOracle ora) (ho : st.outstanding = none)
    (hp : flipPositions cfg st.position = true) :
    flipPositions cfg (handleAlertBody cfg st d ora).1.position = true ∧
    (handleAlertBody cfg st d ora).1.outstanding = none ∧
    cleanOracle (handleAlertBody cfg st d ora).2 ∧
    flipAllowed cfg st.position d (handleAlertBody cfg st d ora).1.position = true := by
  cases d with
  | askHeavy =>
    by_cases hneg : st.position < 0
    · simp only [handleAlertBody, if_pos hneg]
      exact ⟨hp, ho, hc, by simp [flipAllowed, hneg]⟩
    · by_cases hpos : 0 < st.position
      · obtain ⟨hc₁, hout₁, hsucc₁, hfail₁⟩ :=
          submitOrder_clean st .SELL st.position.toNat ora hc
        simp only [handleAlertBody, if_neg hneg, if_pos hpos]
        cases hs : (submitOrder st .SELL st.position.toNat ora).1 with
        | false =>
          have hkeep := hfail₁ hs
          simp only [hs, Bool.false_eq_true, if_false]
          refine ⟨by rw [hkeep]; exact hp, hout₁, hc₁, ?_⟩
          rw [hkeep]
          simp [flipAllowed, hneg]
        | true =>
          have hflat : (submitOrder st .SELL st.position.toNat ora).2.1.position = 0 := by
            rw [hsucc₁ hs]
            have := Int.toNat_of_nonneg hpos.le
            simp [sideDelta, Side.isBuySide]
            omega
          obtain ⟨hc₂, hout₂, hsucc₂, hfail₂⟩ :=
            submitOrder_clean (submitOrder st .SELL st.position.toNat ora).2.1 .SHORT
              cfg.shortSize (submitOrder st .SELL st.position.toNat ora).2.2 hc₁
          simp only [hs, if_true]
          cases hs₂ : (submitOrder (submitOrder st .SELL st.position.toNat ora).2.1 .SHORT
              cfg.shortSize (submitOrder st .SELL st.position.toNat ora).2.2).1 with
          | false =>
            have h0 := hfail₂ hs₂
            rw [h0, hflat]
            exact ⟨by simp [flipPositions], hout₂, hc₂, by simp [flipAllowed, hneg]⟩
          | true =>
            have hS := hsucc₂ hs₂
            rw [hS, hflat]
            refine ⟨?_, hout₂, hc₂, ?_⟩
            · simp [flipPositions, sideDelta, Side.isBuySide]
            · simp [flipAllowed, hneg, sideDelta, Side.isBuySide]
      · have hz : st.position = 0 := le_antisymm (not_lt.mp hpos) (not_lt.mp hneg)
        obtain ⟨hc₁, hout₁, hsucc₁, hfail₁⟩ :=
          submitOrder_clean st .SHORT cfg.shortSize ora hc
        simp only [handleAlertBody, if_neg hneg, if_neg hpos]
        cases hs : (submitOrder st .SHORT cfg.shortSize ora).1 with
        | false =>
          have hkeep := hfail₁ hs
          rw [hkeep, hz]
          exact ⟨by simp [flipPositions], hout₁, hc₁, by simp [flipAllowed]⟩
        | true =>
          have hS := hsucc₁ hs
          rw [hS, hz]
          refine ⟨?_, hout₁, hc₁, ?_⟩
          · simp [flipPositions, sideDelta, Side.isBuySide]
          · simp [flipAllowed, sideDelta, Side.isBuySide]
  | bidHeavy =>
    by_cases hpos : 0 < st.position
    · simp only [handleAlertBody, if_pos hpos]
      exact ⟨hp, ho, hc, by simp [flipAllowed, hpos]⟩
    · by_cases hneg : st.position < 0
      · obtain ⟨hc₁, hout₁, hsucc₁, hfail₁⟩ :=
          submitOrder_clean st .COVER (-st.position).toNat ora hc
        simp only [handleAlertBody, if_neg hpos, if_pos hneg]
        cases hs : (submitOrder st .COVER (-st.position).toNat ora).1 with
        | false =>
          have hkeep := hfail₁ hs
          simp only [hs, Bool.false_eq_true, if_false]
          refine ⟨by rw [hkeep]; exact hp, hout₁, hc₁, ?_⟩
          rw [hkeep]
          simp [flipAllowed, hpos]
        | true =>
          have hflat : (submitOrder st .COVER (-st.position).toNat ora).2.1.position = 0 := by
            rw [hsucc₁ hs]
            have : ((-st.position).toNat : ℤ) = -st.position :=
              Int.toNat_of_nonneg (by omega)
            simp [sideDelta, Side.isBuySide]
            omega
          obtain ⟨hc₂, hout₂, hsucc₂, hfail₂⟩ :=
            submitOrder_clean (submitOrder st .COVER (-st.position).toNat ora).2.1 .BUY
              cfg.positionSize (submitOrder st .COVER (-st.position).toNat ora).2.2 hc₁
          simp only [hs, if_true]
          cases hs₂ : (submitOrder (submitOrder st .COVER (-st.position).toNat ora).2.1 .BUY
              cfg.positionSize (submitOrder st .COVER (-st.position).toNat ora).2.2).1 with
          | false =>
            have h0 := hfail₂ hs₂
            rw [h0, hflat]
            exact ⟨by simp [flipPositions], hout₂, hc₂, by simp [flipAllowed, hpos]⟩
          | true =>
            have hP := hsucc₂ hs₂
            rw [hP, hflat]
            refine ⟨?_, hout₂, hc₂, ?_⟩
            · simp [flipPositions, sideDelta, Side.isBuySide]
            · simp [flipAllowed, hpos, sideDelta, Side.isBuySide]
      · have hz : st.position = 0 := le_antisymm (not_lt.mp hpos) (not_lt.mp hneg)
        obtain ⟨hc₁, hout₁, hsucc₁, hfail₁⟩ :=
          submitOrder_clean st .BUY cfg.positionSize ora hc
        simp only [handleAlertBody, if_neg hpos, if_neg hneg]
        cases hs : (submitOrder st .BUY cfg.positionSize ora).1 with
        | false =>
          have hkeep := hfail₁ hs
          rw [hkeep, hz]
          exact ⟨by simp [flipPositions], hout₁, hc₁, by simp [flipAllowed]⟩
        | true =>
          have hP := hsucc₁ hs
          rw [hP, hz]
          refine ⟨?_, hout₁, hc₁, ?_⟩
          · simp [flipPositions, sideDelta, Side.isBuySide]
          · simp [flipAllowed, sideDelta, Side.isBuySide]

theorem handleAlert_clean (cfg : EngineCfg) (st : EngineState) (d : Direction)
    (ora : ExecOracle) (hc : cleanOracle ora) (ho : st.outstanding = none)
    (hp : flipPositions cfg st.position = true) :
    flipPositions cfg (handleAlert cfg st d ora).1.position = true ∧
    (handleAlert cfg st d ora).1.outstanding = none ∧
    cleanOracle (handleAlert cfg st d ora).2 ∧
    flipAllowed cfg st.position d (handleAlert cfg st d ora).1.position = true := by
  have : handleAlert cfg st d ora = handleAlertBody cfg st d ora := by
    unfold handleAlert
    rw [ho]
  rw [this]
  exact handleAlertBody_clean cfg st d ora hc ho hp

theorem processAlerts_clean (cfg : EngineCfg) (alerts : List Direction) :
    ∀ (st : EngineState) (ora : ExecOracle), cleanOracle ora →
      st.outstanding = none → flipPositions cfg st.position = true →
      flipPositions cfg (processAlerts cfg st alerts ora).1.position = true ∧
      flipRun cfg st alerts ora = true := by
  induction alerts with
  | nil =>
    intro st ora _ _ hp
    exact ⟨hp, rfl⟩
  | cons d rest ih =>
    intro st ora hc ho hp
    obtain ⟨hp', ho', hc', hall⟩ := handleAlert_clean cfg st d ora hc ho hp
    obtain ⟨ihp, ihrun⟩ :=
      ih (handleAlert cfg st d ora).1 (handleAlert cfg st d ora).2 hc' ho' hp'
    refine ⟨ihp, ?_⟩
    simp only [flipRun, hall, ihrun, Bool.and_self]

/-- Claim C2 counterexample: starting flat with position size 1000 and
short size 1000, a single bid-heavy alert whose BUY limit order partially
fills 300 shares and then times out (cancelled, ABANDON-style, order not
left outstanding) leaves the position at +300, outside
`{0, +POSITION_SIZE, -SHORT_SIZE}`. -/
theorem flip_only_violated_by_partial_fill :
    (processAlerts ⟨1000, 1000⟩ ⟨0, none⟩ [Direction.bidHeavy]
      ⟨[⟨false, 300, false⟩], []⟩).1.position = 300 ∧
    flipPositions ⟨1000, 1000⟩ 300 = false := by
  decide

/-- Claim C2 (amended): provided every order submission is all-or-nothing
(a failed submission records no partial fill) and never leaves an
outstanding limit order, processing any finite alert sequence from a flat
state keeps the position in `{0, +POSITION_SIZE, -SHORT_SIZE}` and every
step follows the flip-only transition rules of §4.6. -/
theorem flip_only_invariant (cfg : EngineCfg) (alerts : List Direction)
    (ora : ExecOracle) (hora : cleanOracle ora) :
    flipPositions cfg (processAlerts cfg ⟨0, none⟩ alerts ora).1.position = true ∧
    flipRun cfg ⟨0, none⟩ alerts ora = true :=
  processAlerts_clean cfg alerts ⟨0, none⟩ ora hora rfl (by simp [flipPositions])

/-- Witness for the amended claim C2: two alerts that fully fill (short
then flip to long) under a clean oracle. -/
theorem flip_only_invariant_witness :
    cleanOracle ⟨[⟨true, 0, false⟩, ⟨true, 0, false⟩, ⟨true, 0, false⟩], []⟩ ∧
    (flipPositions ⟨1000, 1000⟩
        (processAlerts ⟨1000, 1000⟩ ⟨0, none⟩ [Direction.askHeavy, Direction.bidHeavy]
          ⟨[⟨true, 0, false⟩, ⟨true, 0, false⟩, ⟨true, 0, false⟩], []⟩).1.position = true ∧
     flipRun ⟨1000, 1000⟩ ⟨0, none⟩ [Direction.askHeavy, Direction.bidHeavy]
        ⟨[⟨true, 0, false⟩, ⟨true, 0, false⟩, ⟨true, 0, false⟩], []⟩ = true) :=
  ⟨by simp [cleanOracle],
   flip_only_invariant ⟨1000, 1000⟩ [Direction.askHeavy, Direction.bidHeavy]
     ⟨[⟨true, 0, false⟩, ⟨true, 0, false⟩, ⟨true, 0, false⟩], []⟩
     (by simp [cleanOracle])⟩
